import Mathlib

set_option maxRecDepth 100000

/-!
Verification of the simplistic ELF parser from `qutebrowser/misc/elf.py`.

The Python module reads an ELF shared library, locates the `.rodata` section
via the section-header string table, maps that section and searches it for the
byte pattern `QtWebEngine/([0-9.]+) Chrome/([0-9.]+)`.

Shallow embedding conventions:
* a file's content is a `List Nat` of byte values; the open file object
  (`IO[bytes]`) becomes the record `FObj` holding the content, the current
  position, and an oracle `readFails` telling which read operations raise
  `OSError` (the content itself is deterministic, but the device may fail);
* Python exceptions become the `Exc` type: `Exc.parse e` is `ParseError`
  (with `PError` recording which message/site raised it), `Exc.osErr` is an
  uncaught `OSError`, and `Exc.valueErr` an uncaught `ValueError` (CPython's
  `mmap` raises `ValueError` for misaligned offsets and out-of-range lengths);
* fallible steps return `Except Exc`; all functions are total, which models
  the absence of crashes and of out-of-bounds reads.
-/

/-- Which `ParseError` was raised, following the distinct raise sites and
messages of `elf.py`. -/
inductive PError where
  /-- `ParseError(e)` wrapping an `OSError` (in `_unpack` or around `mmap`). -/
  | fromOS : PError
  /-- `ParseError(e)` wrapping a `struct.error`, i.e. a short read. -/
  | structErr : PError
  /-- `ParseError(f"Invalid bitness {klass}")` in `Ident.parse`. -/
  | invalidBitness : Nat → PError
  /-- `ParseError(f"Invalid endianness {data}")` in `Ident.parse`. -/
  | invalidEndianness : Nat → PError
  /-- `ParseError(f"Invalid magic {magic!r}")` in `get_rodata_header`. -/
  | invalidMagic : List Nat → PError
  /-- `ParseError("Big endian is unsupported")`. -/
  | bigEndian : PError
  /-- `ParseError(f"Only version 1 is supported, not {version}")`. -/
  | badVersion : Nat → PError
  /-- `ParseError("No .rodata section found")`. -/
  | noRodata : PError
  /-- `ParseError("No match in .rodata")`. -/
  | noMatch : PError
  /-- `ParseError(e)` wrapping a `UnicodeDecodeError`. -/
  | decodeErr : PError
deriving DecidableEq

/-- An exception escaping a pipeline step: either a `ParseError` or an
exception of another class (which `except ParseError` does not catch). -/
inductive Exc where
  /-- A `ParseError`. -/
  | parse : PError → Exc
  /-- An uncaught `OSError` from a raw `f.read` outside `_unpack`. -/
  | osErr : Exc
  /-- An uncaught `ValueError` (raised by CPython `mmap`). -/
  | valueErr : Exc
deriving DecidableEq

/-- The open binary file: its byte content, the current position, and an
oracle marking which read operations (numbered from 0) raise `OSError`. -/
structure FObj where
  content : List Nat
  pos : Nat
  readFails : Nat → Bool
  opIdx : Nat

/-- Python `f.read(n)`: returns at most `n` bytes from the current position
(fewer at end of file, which is not an error), or raises `OSError` when the
oracle says this operation fails. -/
def fread (n : Nat) (f : FObj) : Except Exc (List Nat × FObj) :=
  if f.readFails f.opIdx then .error .osErr
  else
    let data := (f.content.drop f.pos).take n
    .ok (data, ⟨f.content, f.pos + data.length, f.readFails, f.opIdx + 1⟩)

/-- Python `f.seek(off)` for a regular file and a non-negative offset: it
just repositions and cannot fail. -/
def fseek (off : Nat) (f : FObj) : FObj :=
  ⟨f.content, off, f.readFails, f.opIdx⟩

/-- The oracle of a file whose reads never fail. -/
def noFail : Nat → Bool := fun _ => false

/-- A freshly opened file object over content `c`. -/
def FObj.init (c : List Nat) (rf : Nat → Bool) : FObj := ⟨c, 0, rf, 0⟩

/-- A freshly opened file object whose reads never fail. -/
def mkF (c : List Nat) : FObj := FObj.init c noFail

/-- Little-endian value of a byte list (file bytes are octets `< 256`). -/
def leVal : List Nat → Nat
  | [] => 0
  | b :: bs => b + 256 * leVal bs

/-- Split a byte list into little-endian fields of the given widths, as
`struct.unpack` does for a format of unsigned integer fields. -/
def takeFields : List Nat → List Nat → List Nat
  | [], _ => []
  | w :: ws, bs => leVal (bs.take w) :: takeFields ws (bs.drop w)

/-- `_unpack(fmt, fobj)` for a format made of unsigned little-endian integer
fields: reads `struct.calcsize(fmt)` bytes, wrapping an `OSError` from the
read into `ParseError`, and wrapping the `struct.error` raised on a short
read into `ParseError` as well. -/
def unpackLE (widths : List Nat) (f : FObj) : Except Exc (List Nat × FObj) :=
  match fread widths.sum f with
  | .error _ => .error (.parse .fromOS)
  | .ok (d, f1) =>
    if d.length ≠ widths.sum then .error (.parse .structErr)
    else .ok (takeFields widths d, f1)

/-- `class Bitness(enum.Enum): x32 = 1; x64 = 2`. -/
inductive Bitness where
  | x32 : Bitness
  | x64 : Bitness
deriving DecidableEq

/-- `Bitness(n)` via fromVal: `none` models the `ValueError` of an enum miss. -/
def Bitness.fromVal : Nat → Option Bitness
  | 1 => some .x32
  | 2 => some .x64
  | _ => none

/-- `class Endianness(enum.Enum): little = 1; big = 2`. -/
inductive Endianness where
  | little : Endianness
  | big : Endianness
deriving DecidableEq

/-- `Endianness(n)` via fromVal: `none` models the `ValueError` of an enum miss. -/
def Endianness.fromVal : Nat → Option Endianness
  | 1 => some .little
  | 2 => some .big
  | _ => none

/-- The `Ident` dataclass: the decoded 16-byte ELF identification block. -/
structure Ident where
  magic : List Nat
  klass : Bitness
  data : Endianness
  version : Nat
  osabi : Nat
  abiversion : Nat
deriving DecidableEq

/-- `Ident.parse`: `_unpack('<4sBBBBB7x', fobj)` reads 16 bytes (4 raw magic
bytes, five single bytes, 7 padding bytes); an `OSError` or a short read is
wrapped into `ParseError` by `_unpack`; then `Bitness(klass)` and
`Endianness(data)` are validated in this order, each `ValueError` re-raised
as `ParseError`. -/
def Ident.parse (f : FObj) : Except Exc (Ident × FObj) :=
  match fread 16 f with
  | .error _ => .error (.parse .fromOS)
  | .ok (d, f1) =>
    if d.length ≠ 16 then .error (.parse .structErr)
    else
      match Bitness.fromVal (d.getD 4 0) with
      | none => .error (.parse (.invalidBitness (d.getD 4 0)))
      | some k =>
        match Endianness.fromVal (d.getD 5 0) with
        | none => .error (.parse (.invalidEndianness (d.getD 5 0)))
        | some e => .ok (⟨d.take 4, k, e, d.getD 6 0, d.getD 7 0, d.getD 8 0⟩, f1)

/-- The `Header` dataclass: the decoded ELF primary header. -/
structure Header where
  typ : Nat
  machine : Nat
  version : Nat
  entry : Nat
  phoff : Nat
  shoff : Nat
  flags : Nat
  ehsize : Nat
  phentsize : Nat
  phnum : Nat
  shentsize : Nat
  shnum : Nat
  shstrndx : Nat
deriving DecidableEq

/-- Field widths of `Header._FORMATS`: `<HHIQQQIHHHHHH` for x64 and
`<HHIIIIIHHHHHH` for x32. -/
def hWidths : Bitness → List Nat
  | .x64 => [2, 2, 4, 8, 8, 8, 4, 2, 2, 2, 2, 2, 2]
  | .x32 => [2, 2, 4, 4, 4, 4, 4, 2, 2, 2, 2, 2, 2]

/-- `struct.calcsize` of the primary-header format (0x30 for x64, 0x24 for
x32). -/
def hSize (k : Bitness) : Nat := (hWidths k).sum

/-- Build a `Header` from the 13 unpacked field values. -/
def Header.ofVals (v : List Nat) : Header :=
  ⟨v.getD 0 0, v.getD 1 0, v.getD 2 0, v.getD 3 0, v.getD 4 0, v.getD 5 0,
   v.getD 6 0, v.getD 7 0, v.getD 8 0, v.getD 9 0, v.getD 10 0, v.getD 11 0,
   v.getD 12 0⟩

/-- `Header.parse(fobj, bitness)`. -/
def Header.parse (k : Bitness) (f : FObj) : Except Exc (Header × FObj) :=
  match unpackLE (hWidths k) f with
  | .error e => .error e
  | .ok (vs, f1) => .ok (Header.ofVals vs, f1)

/-- The `SectionHeader` dataclass: one decoded section-header table entry. -/
structure SectionHeader where
  name : Nat
  typ : Nat
  flags : Nat
  addr : Nat
  offset : Nat
  size : Nat
  link : Nat
  info : Nat
  addralign : Nat
  entsize : Nat
deriving DecidableEq

/-- Field widths of `SectionHeader._FORMATS`: `<IIQQQQIIQQ` for x64 and
`<IIIIIIIIII` for x32. -/
def shWidths : Bitness → List Nat
  | .x64 => [4, 4, 8, 8, 8, 8, 4, 4, 8, 8]
  | .x32 => [4, 4, 4, 4, 4, 4, 4, 4, 4, 4]

/-- `struct.calcsize` of the section-header format (0x40 for x64, 0x28 for
x32). -/
def shSize (k : Bitness) : Nat := (shWidths k).sum

/-- Build a `SectionHeader` from the 10 unpacked field values. -/
def SectionHeader.ofVals (v : List Nat) : SectionHeader :=
  ⟨v.getD 0 0, v.getD 1 0, v.getD 2 0, v.getD 3 0, v.getD 4 0, v.getD 5 0,
   v.getD 6 0, v.getD 7 0, v.getD 8 0, v.getD 9 0⟩

/-- `SectionHeader.parse(fobj, bitness)`. -/
def SectionHeader.parse (k : Bitness) (f : FObj) : Except Exc (SectionHeader × FObj) :=
  match unpackLE (shWidths k) f with
  | .error e => .error e
  | .ok (vs, f1) => .ok (SectionHeader.ofVals vs, f1)

/-- Python `bytes.split(b"\x00")`: chunks between null bytes; never empty
(a byte string with no null yields one chunk, the empty string yields one
empty chunk). -/
def splitOnNull : List Nat → List (List Nat)
  | [] => [[]]
  | b :: bs =>
    if b = 0 then [] :: splitOnNull bs
    else
      match splitOnNull bs with
      | [] => [[b]]
      | h :: t => (b :: h) :: t

/-- Name resolution `string_table[off:].split(b"\x00")[0]`: the bytes of the
string table starting at `off`, up to (not including) the first null byte. -/
def resolveName (st : List Nat) (off : Nat) : List Nat :=
  (splitOnNull (st.drop off)).headI

/-- The target section name `b".rodata"`. -/
def rodataName : List Nat := [46, 114, 111, 100, 97, 116, 97]

/-- The loop `for i in range(header.shnum)` of `get_rodata_header`, started
at index `i` with `fuel` iterations left: seek to the entry, parse it,
resolve its name against `b".rodata"`, return on a match, else continue;
after the last iteration raise `ParseError("No .rodata section found")`.
The second component instruments the loop with the number of entries
visited (iterations whose `SectionHeader.parse` was attempted); it is
discarded by `get_rodata_header` and does not influence the result. -/
def scanFrom (st : List Nat) (shoff shent : Nat) (k : Bitness) :
    FObj → Nat → Nat → Except Exc (SectionHeader × FObj) × Nat
  | _, _, 0 => (.error (.parse .noRodata), 0)
  | f, i, fuel + 1 =>
    let f1 := fseek (shoff + i * shent) f
    match SectionHeader.parse k f1 with
    | .error e => (.error e, 1)
    | .ok (sh, f2) =>
      if resolveName st sh.name = rodataName then (.ok (sh, f2), 1)
      else
        let r := scanFrom st shoff shent k f2 (i + 1) fuel
        (r.1, r.2 + 1)

/-- `b"\x7fELF"`, the required ELF magic. -/
def elfMagic : List Nat := [127, 69, 76, 70]

/-- `get_rodata_header(f)`: parse the identification block, check magic,
endianness and version, parse the primary header, read the section-header
string table (note: this `f.read` is a raw read, not wrapped by `_unpack`,
so an `OSError` here is not converted to `ParseError`), then scan all
section headers for the one named `.rodata`. -/
def get_rodata_header (f : FObj) : Except Exc (SectionHeader × FObj) :=
  match Ident.parse f with
  | .error e => .error e
  | .ok (ident, f1) =>
    if ident.magic ≠ elfMagic then .error (.parse (.invalidMagic ident.magic))
    else if ident.data ≠ Endianness.little then .error (.parse .bigEndian)
    else if ident.version ≠ 1 then .error (.parse (.badVersion ident.version))
    else
      match Header.parse ident.klass f1 with
      | .error e => .error e
      | .ok (header, f2) =>
        let f3 := fseek (header.shoff + header.shstrndx * header.shentsize) f2
        match SectionHeader.parse ident.klass f3 with
        | .error e => .error e
        | .ok (shstr, f4) =>
          let f5 := fseek shstr.offset f4
          match fread shstr.size f5 with
          | .error e => .error e
          | .ok (string_table, f6) =>
            (scanFrom string_table header.shoff header.shentsize ident.klass
              f6 0 header.shnum).1

/-- The character class `[0-9.]` of the version pattern. -/
def versionChar (b : Nat) : Bool := (48 ≤ b && b ≤ 57) || b == 46

/-- `b"QtWebEngine/"`, the first literal of the pattern. -/
def qtwePre : List Nat := [81, 116, 87, 101, 98, 69, 110, 103, 105, 110, 101, 47]

/-- `b" Chrome/"`, the second literal of the pattern. -/
def chromePre : List Nat := [32, 67, 104, 114, 111, 109, 101, 47]

/-- Match the regular expression `QtWebEngine/([0-9.]+) Chrome/([0-9.]+)`
anchored at the head of `l`, returning the two captured groups.

Both `[0-9.]+` captures are the maximal runs of version characters: the
backtracking engine first tries the greedy (maximal) run; any shorter run
would have to be followed by the literal space of `b" Chrome/"`, but the
next byte after a shorter run is by construction a version character and
the space (byte 32) is not one, so no backtracking alternative can succeed.
The second group has nothing after it in the pattern, so its greedy
(maximal) run is captured directly. -/
def matchMarkerAt (l : List Nat) : Option (List Nat × List Nat) :=
  if l.take 12 = qtwePre then
    let r1 := l.drop 12
    let v1 := r1.takeWhile versionChar
    if v1 = [] then none
    else
      let r2 := r1.drop v1.length
      if r2.take 8 = chromePre then
        let r3 := r2.drop 8
        let v2 := r3.takeWhile versionChar
        if v2 = [] then none else some (v1, v2)
      else none
  else none

/-- `re.search`: try the pattern at each position from the left, returning
the captures of the leftmost position at which it matches. -/
def reSearch : List Nat → Option (List Nat × List Nat)
  | [] => none
  | x :: xs =>
    match matchMarkerAt (x :: xs) with
    | some g => some g
    | none => reSearch xs

/-- `bytes.decode('ascii')`, with the `UnicodeDecodeError` wrapped into
`ParseError` as `_parse_from_path` does. -/
def decodeAscii (bs : List Nat) : Except Exc (List Nat) :=
  if bs.all (fun b => b < 128) then .ok bs else .error (.parse .decodeErr)

/-- The `Versions` dataclass (two ASCII strings, kept as byte lists). -/
structure Versions where
  webengine : List Nat
  chromium : List Nat
deriving DecidableEq

/-- The tail of `_parse_from_path` operating on the mapped `.rodata` bytes:
`re.search` for the version pattern, `ParseError("No match in .rodata")`
when absent, then decode both captured groups (first group first, matching
the evaluation order of the `Versions(...)` call). -/
def versionsFromRodata (rodata : List Nat) : Except Exc Versions :=
  match reSearch rodata with
  | none => .error (.parse .noMatch)
  | some (g1, g2) =>
    match decodeAscii g1 with
    | .error e => .error e
    | .ok w =>
      match decodeAscii g2 with
      | .error e => .error e
      | .ok ch => .ok ⟨w, ch⟩

/-- `mmap.ALLOCATIONGRANULARITY` on Linux. -/
def allocGranularity : Nat := 4096

/-- `mmap.mmap(f.fileno(), size, offset=offset, access=mmap.ACCESS_READ)`:
CPython raises `ValueError` when the offset is not a multiple of
`ALLOCATIONGRANULARITY`, when `offset + size` exceeds the file size, or when
the resulting map would be empty; a length of 0 maps the rest of the file.
These `ValueError`s are not `OSError`s, so the `except OSError` around the
call in `_parse_from_path` does not catch them. -/
def mmapRead (c : List Nat) (size offset : Nat) : Except Exc (List Nat) :=
  if offset % allocGranularity ≠ 0 then .error .valueErr
  else if size = 0 then
    if offset < c.length then .ok (c.drop offset) else .error .valueErr
  else if offset + size > c.length then .error .valueErr
  else .ok ((c.drop offset).take size)

/-- `_parse_from_path(path)`: open the file, run `get_rodata_header`, map
the located section's byte range, and extract the two versions. -/
def _parse_from_path (c : List Nat) (rf : Nat → Bool) : Except Exc Versions :=
  match get_rodata_header (FObj.init c rf) with
  | .error e => .error e
  | .ok (sh, _) =>
    match mmapRead c sh.size sh.offset with
    | .error e => .error e
    | .ok rodata => versionsFromRodata rodata

/-- `parse_webenginecore()`: returns `None` when the library file does not
exist; otherwise runs `_parse_from_path` and catches `ParseError` — and only
`ParseError` — converting it to `None`. An exception of any other class
escapes as `Except.error`. -/
def parse_webenginecore (libExists : Bool) (c : List Nat) (rf : Nat → Bool) :
    Except Exc (Option Versions) :=
  if libExists = false then .ok none
  else
    match _parse_from_path c rf with
    | .ok v => .ok (some v)
    | .error (.parse _) => .ok none
    | .error e => .error e

/-- Whether a `parse_webenginecore` outcome is an escaped `ParseError`. -/
def isParseErrorResult : Except Exc (Option Versions) → Bool
  | .error (.parse _) => true
  | _ => false

/-- Pure mirror of the primary header decoded at offset 16 of content `c`
(the value `Header.parse` produces on a sufficiently long file). -/
def headerAt (c : List Nat) (k : Bitness) : Header :=
  Header.ofVals (takeFields (hWidths k) ((c.drop 16).take (hSize k)))

/-- Pure mirror of the section-header entry decoded at
`shoff + i * shent` of content `c`. -/
def sectionEntryAt (c : List Nat) (k : Bitness) (shoff shent i : Nat) : SectionHeader :=
  SectionHeader.ofVals (takeFields (shWidths k) ((c.drop (shoff + i * shent)).take (shSize k)))

/-- Pure mirror of the string-table blob `f.read(shstr.size)` loaded by
`get_rodata_header` from content `c`. -/
def stringTableAt (c : List Nat) (k : Bitness) : List Nat :=
  let hd := headerAt c k
  let e := sectionEntryAt c k hd.shoff hd.shentsize hd.shstrndx
  (c.drop e.offset).take e.size

/-- The file-object state at which the section scan of `get_rodata_header`
starts, for an error-free file of content `c`: position just past the
string-table blob, four reads performed (ident, header, string-table
section header, string-table blob). -/
def scanStartF (c : List Nat) (k : Bitness) : FObj :=
  let hd := headerAt c k
  let e := sectionEntryAt c k hd.shoff hd.shentsize hd.shstrndx
  ⟨c, e.offset + ((c.drop e.offset).take e.size).length, noFail, 4⟩

/-- The marker bytes `b"QtWebEngine/89.0.4389.90 Chrome/89.0.4389.90"`. -/
def v89 : List Nat := [56, 57, 46, 48, 46, 52, 51, 56, 57, 46, 57, 48]

/-- The full 44-byte marker. -/
def marker89 : List Nat := qtwePre ++ v89 ++ chromePre ++ v89

/-! Evaluation lemmas for the byte-source and parsing primitives. -/

theorem fread_noFail_eval (n : Nat) (f : FObj) (h : f.readFails f.opIdx = false) :
    fread n f = .ok ((f.content.drop f.pos).take n,
      ⟨f.content, f.pos + ((f.content.drop f.pos).take n).length, f.readFails, f.opIdx + 1⟩) := by
  simp [fread, h]

theorem fread_mkF (c : List Nat) (n : Nat) :
    fread n (mkF c) = .ok (c.take n, ⟨c, (c.take n).length, noFail, 1⟩) := by
  simp [fread, mkF, FObj.init, noFail]

theorem getD_take_lt (l : List Nat) (n i d : Nat) (h : i < n) :
    (l.take n).getD i d = l.getD i d := by
  simp [List.getD, List.getElem?_take, h]

theorem unpackLE_ok (ws : List Nat) (f : FObj) (h : f.readFails f.opIdx = false)
    (hb : f.pos + ws.sum ≤ f.content.length) :
    unpackLE ws f = .ok (takeFields ws ((f.content.drop f.pos).take ws.sum),
      ⟨f.content, f.pos + ws.sum, f.readFails, f.opIdx + 1⟩) := by
  have hlen : ((f.content.drop f.pos).take ws.sum).length = ws.sum := by
    simp only [List.length_take, List.length_drop]
    omega
  simp [unpackLE, fread_noFail_eval _ _ h, hlen]

theorem unpackLE_short (ws : List Nat) (f : FObj) (h : f.readFails f.opIdx = false)
    (hpos : 0 < ws.sum) (hb : f.content.length < f.pos + ws.sum) :
    unpackLE ws f = .error (.parse .structErr) := by
  have hlen : ((f.content.drop f.pos).take ws.sum).length ≠ ws.sum := by
    simp only [List.length_take, List.length_drop]
    omega
  simp only [unpackLE, fread_noFail_eval _ _ h]
  rw [if_pos hlen]

theorem identParse_short (c : List Nat) (h : c.length < 16) :
    Ident.parse (mkF c) = .error (.parse .structErr) := by
  have hlen : (c.take 16).length ≠ 16 := by
    simp only [List.length_take]
    omega
  simp only [Ident.parse, fread_mkF]
  rw [if_pos hlen]

theorem identParse_badBitness (c : List Nat) (h16 : 16 ≤ c.length)
    (hk : Bitness.fromVal (c.getD 4 0) = none) :
    Ident.parse (mkF c) = .error (.parse (.invalidBitness (c.getD 4 0))) := by
  have hlen : (c.take 16).length = 16 := by
    simp only [List.length_take]
    omega
  have h4 := getD_take_lt c 16 4 0 (by omega)
  simp only [Ident.parse, fread_mkF]
  rw [if_neg (not_not_intro hlen), h4, hk]

theorem identParse_badEndian (c : List Nat) (h16 : 16 ≤ c.length) (k : Bitness)
    (hk : Bitness.fromVal (c.getD 4 0) = some k)
    (he : Endianness.fromVal (c.getD 5 0) = none) :
    Ident.parse (mkF c) = .error (.parse (.invalidEndianness (c.getD 5 0))) := by
  have hlen : (c.take 16).length = 16 := by
    simp only [List.length_take]
    omega
  have h4 := getD_take_lt c 16 4 0 (by omega)
  have h5 := getD_take_lt c 16 5 0 (by omega)
  simp only [Ident.parse, fread_mkF]
  rw [if_neg (not_not_intro hlen), h4, hk, h5, he]

theorem identParse_ok (c : List Nat) (h16 : 16 ≤ c.length) (k : Bitness) (e : Endianness)
    (hk : Bitness.fromVal (c.getD 4 0) = some k)
    (he : Endianness.fromVal (c.getD 5 0) = some e) :
    Ident.parse (mkF c) =
      .ok (⟨c.take 4, k, e, c.getD 6 0, c.getD 7 0, c.getD 8 0⟩, ⟨c, 16, noFail, 1⟩) := by
  have hlen : (c.take 16).length = 16 := by
    simp only [List.length_take]
    omega
  have h4 := getD_take_lt c 16 4 0 (by omega)
  have h5 := getD_take_lt c 16 5 0 (by omega)
  have h6 := getD_take_lt c 16 6 0 (by omega)
  have h7 := getD_take_lt c 16 7 0 (by omega)
  have h8 := getD_take_lt c 16 8 0 (by omega)
  have hm : (c.take 16).take 4 = c.take 4 := by
    rw [List.take_take]
    congr 1
  simp only [Ident.parse, fread_mkF]
  rw [if_neg (not_not_intro hlen), h4, hk, h5, he, h6, h7, h8, hm, hlen]

theorem headerParse_ok (c : List Nat) (k : Bitness) (hb : 16 + hSize k ≤ c.length) :
    Header.parse k ⟨c, 16, noFail, 1⟩ = .ok (headerAt c k, ⟨c, 16 + hSize k, noFail, 2⟩) := by
  have h := unpackLE_ok (hWidths k) ⟨c, 16, noFail, 1⟩ rfl hb
  simp only [Header.parse, h, headerAt, hSize]

theorem headerParse_short (c : List Nat) (k : Bitness) (hb : c.length < 16 + hSize k) :
    Header.parse k ⟨c, 16, noFail, 1⟩ = .error (.parse .structErr) := by
  have hpos : 0 < (hWidths k).sum := by cases k <;> decide
  have h := unpackLE_short (hWidths k) ⟨c, 16, noFail, 1⟩ rfl hpos hb
  simp only [Header.parse, h]

theorem shParse_eval_ok (c : List Nat) (k : Bitness) (rf : Nat → Bool) (p j : Nat)
    (hrf : rf j = false) (hb : p + shSize k ≤ c.length) :
    SectionHeader.parse k ⟨c, p, rf, j⟩ =
      .ok (SectionHeader.ofVals (takeFields (shWidths k) ((c.drop p).take (shSize k))),
        ⟨c, p + shSize k, rf, j + 1⟩) := by
  have h := unpackLE_ok (shWidths k) ⟨c, p, rf, j⟩ hrf hb
  simp only [SectionHeader.parse, h, shSize]

theorem shParse_eval_short (c : List Nat) (k : Bitness) (rf : Nat → Bool) (p j : Nat)
    (hrf : rf j = false) (hb : c.length < p + shSize k) :
    SectionHeader.parse k ⟨c, p, rf, j⟩ = .error (.parse .structErr) := by
  have hpos : 0 < (shWidths k).sum := by cases k <;> decide
  have h := unpackLE_short (shWidths k) ⟨c, p, rf, j⟩ hrf hpos hb
  simp only [SectionHeader.parse, h]


/-! Induction lemmas for the section scan of `get_rodata_header`. -/

theorem scanFrom_noMatch (c st : List Nat) (k : Bitness) (shoff shent : Nat) (fuel : Nat) :
    ∀ (i : Nat) (f : FObj), f.content = c → (∀ j, f.readFails j = false) →
    (∀ j, i ≤ j → j < i + fuel → shoff + j * shent + shSize k ≤ c.length) →
    (∀ j, i ≤ j → j < i + fuel →
      resolveName st (sectionEntryAt c k shoff shent j).name ≠ rodataName) →
    scanFrom st shoff shent k f i fuel = (.error (.parse .noRodata), fuel) := by
  induction fuel with
  | zero =>
    intro i f _ _ _ _
    rfl
  | succ fuel ih =>
    intro i f hc hrf hb hm
    have hp := shParse_eval_ok c k f.readFails (shoff + i * shent) f.opIdx
      (hrf f.opIdx) (hb i (le_refl i) (by omega))
    have hname : resolveName st
        (SectionHeader.ofVals (takeFields (shWidths k)
          ((c.drop (shoff + i * shent)).take (shSize k)))).name ≠ rodataName := by
      have := hm i (le_refl i) (by omega)
      simpa [sectionEntryAt] using this
    simp only [scanFrom, fseek, hc, hp]
    rw [if_neg hname]
    rw [ih (i + 1) ⟨c, shoff + i * shent + shSize k, f.readFails, f.opIdx + 1⟩ rfl
      (fun j => hrf j)
      (fun j hj1 hj2 => hb j (by omega) (by omega))
      (fun j hj1 hj2 => hm j (by omega) (by omega))]

theorem scanFrom_found (c st : List Nat) (k : Bitness) (shoff shent : Nat) (fuel : Nat) :
    ∀ (i : Nat) (f : FObj), f.content = c → (∀ j, f.readFails j = false) →
    ∀ i0 : Nat, i ≤ i0 → i0 < i + fuel →
    (∀ j, i ≤ j → j ≤ i0 → shoff + j * shent + shSize k ≤ c.length) →
    resolveName st (sectionEntryAt c k shoff shent i0).name = rodataName →
    (∀ j, i ≤ j → j < i0 →
      resolveName st (sectionEntryAt c k shoff shent j).name ≠ rodataName) →
    ∃ f2, scanFrom st shoff shent k f i fuel =
      (.ok (sectionEntryAt c k shoff shent i0, f2), i0 - i + 1) := by
  induction fuel with
  | zero =>
    intro i f _ _ i0 h1 h2 _ _ _
    omega
  | succ fuel ih =>
    intro i f hc hrf i0 hi1 hi2 hb hmatch hleast
    have hp := shParse_eval_ok c k f.readFails (shoff + i * shent) f.opIdx
      (hrf f.opIdx) (hb i (le_refl i) hi1)
    by_cases hcase : i0 = i
    · subst hcase
      have hname : resolveName st
          (SectionHeader.ofVals (takeFields (shWidths k)
            ((c.drop (shoff + i0 * shent)).take (shSize k)))).name = rodataName := by
        simpa [sectionEntryAt] using hmatch
      refine ⟨⟨c, shoff + i0 * shent + shSize k, f.readFails, f.opIdx + 1⟩, ?_⟩
      simp only [scanFrom, fseek, hc, hp]
      rw [if_pos hname]
      simp [sectionEntryAt]
    · have hii : i < i0 := by omega
      have hname : resolveName st
          (SectionHeader.ofVals (takeFields (shWidths k)
            ((c.drop (shoff + i * shent)).take (shSize k)))).name ≠ rodataName := by
        have := hleast i (le_refl i) hii
        simpa [sectionEntryAt] using this
      obtain ⟨f2, hrec⟩ := ih (i + 1) ⟨c, shoff + i * shent + shSize k, f.readFails, f.opIdx + 1⟩
        rfl (fun j => hrf j) i0 (by omega) (by omega)
        (fun j hj1 hj2 => hb j (by omega) hj2) hmatch
        (fun j hj1 hj2 => hleast j (by omega) hj2)
      refine ⟨f2, ?_⟩
      simp only [scanFrom, fseek, hc, hp]
      rw [if_neg hname, hrec]
      simp only [Prod.mk.injEq]
      exact ⟨trivial, by omega⟩

theorem scanFrom_trunc (c st : List Nat) (k : Bitness) (shoff shent : Nat) (fuel : Nat) :
    ∀ (i : Nat) (f : FObj), f.content = c → (∀ j, f.readFails j = false) →
    ∀ i0 : Nat, i ≤ i0 → i0 < i + fuel →
    (∀ j, i ≤ j → j < i0 → shoff + j * shent + shSize k ≤ c.length ∧
      resolveName st (sectionEntryAt c k shoff shent j).name ≠ rodataName) →
    c.length < shoff + i0 * shent + shSize k →
    scanFrom st shoff shent k f i fuel = (.error (.parse .structErr), i0 - i + 1) := by
  induction fuel with
  | zero =>
    intro i f _ _ i0 h1 h2 _ _
    omega
  | succ fuel ih =>
    intro i f hc hrf i0 hi1 hi2 hpre htr
    by_cases hcase : i0 = i
    · subst hcase
      have hp := shParse_eval_short c k f.readFails (shoff + i0 * shent) f.opIdx
        (hrf f.opIdx) htr
      simp only [scanFrom, fseek, hc, hp]
      simp
    · have hii : i < i0 := by omega
      have hp := shParse_eval_ok c k f.readFails (shoff + i * shent) f.opIdx
        (hrf f.opIdx) (hpre i (le_refl i) hii).1
      have hname : resolveName st
          (SectionHeader.ofVals (takeFields (shWidths k)
            ((c.drop (shoff + i * shent)).take (shSize k)))).name ≠ rodataName := by
        have := (hpre i (le_refl i) hii).2
        simpa [sectionEntryAt] using this
      simp only [scanFrom, fseek, hc, hp]
      rw [if_neg hname]
      rw [ih (i + 1) ⟨c, shoff + i * shent + shSize k, f.readFails, f.opIdx + 1⟩ rfl
        (fun j => hrf j) i0 (by omega) (by omega)
        (fun j hj1 hj2 => hpre j (by omega) hj2) htr]
      simp only [Prod.mk.injEq]
      exact ⟨trivial, by omega⟩

/-- Evaluation of `get_rodata_header` down to the section scan, for an
error-free little-endian version-1 file whose primary header and
string-table section header are in bounds. -/
theorem grh_eval (c : List Nat) (k : Bitness)
    (h16 : 16 ≤ c.length)
    (hk : Bitness.fromVal (c.getD 4 0) = some k)
    (hmag : c.take 4 = elfMagic)
    (hlit : c.getD 5 0 = 1)
    (hver : c.getD 6 0 = 1)
    (hh : 16 + hSize k ≤ c.length)
    (hstr : (headerAt c k).shoff + (headerAt c k).shstrndx * (headerAt c k).shentsize
      + shSize k ≤ c.length) :
    get_rodata_header (mkF c) =
      (scanFrom (stringTableAt c k) (headerAt c k).shoff (headerAt c k).shentsize k
        (scanStartF c k) 0 (headerAt c k).shnum).1 := by
  have hident := identParse_ok c h16 k Endianness.little hk (by rw [hlit]; rfl)
  have hheader := headerParse_ok c k hh
  have hshstr := shParse_eval_ok c k noFail
    ((headerAt c k).shoff + (headerAt c k).shstrndx * (headerAt c k).shentsize) 2 rfl hstr
  simp only [get_rodata_header, hident, hmag, hver, fseek, hheader, hshstr]
  rw [if_neg (not_not_intro rfl)]
  rw [if_neg (by intro hcon; exact hcon rfl)]
  rw [if_neg (by intro hcon; exact hcon rfl)]
  rw [fread_noFail_eval _ _ rfl]
  simp only [stringTableAt, scanStartF, sectionEntryAt]

/-! Lemmas about name resolution and the pattern search. -/

theorem splitOnNull_ne_nil (l : List Nat) : splitOnNull l ≠ [] := by
  cases l with
  | nil => simp [splitOnNull]
  | cons b bs =>
    simp only [splitOnNull]
    by_cases hb : b = 0
    · simp [hb]
    · simp only [hb, if_false]
      cases h : splitOnNull bs <;> simp

theorem headI_splitOnNull (l : List Nat) :
    (splitOnNull l).headI = l.takeWhile (fun b => b != 0) := by
  induction l with
  | nil => rfl
  | cons b bs ih =>
    simp only [splitOnNull]
    by_cases hb : b = 0
    · subst hb
      simp [List.takeWhile_cons]
    · simp only [hb, if_false]
      cases h : splitOnNull bs with
      | nil => exact absurd h (splitOnNull_ne_nil bs)
      | cons hd tl =>
        have hhd : hd = bs.takeWhile (fun b => b != 0) := by
          rw [← ih, h]
          rfl
        simp [List.takeWhile_cons, hb, hhd]

theorem resolveName_eq_takeWhile (st : List Nat) (off : Nat) :
    resolveName st off = (st.drop off).takeWhile (fun b => b != 0) := by
  unfold resolveName
  exact headI_splitOnNull (st.drop off)

theorem takeWhile_stop (p : Nat → Bool) (xs : List Nat) (b : Nat) (t : List Nat)
    (hxs : ∀ x ∈ xs, p x = true) (hb : p b = false) :
    (xs ++ b :: t).takeWhile p = xs := by
  induction xs with
  | nil => simp [List.takeWhile_cons, hb]
  | cons y ys ih =>
    have hy : p y = true := hxs y (by simp)
    simp [List.takeWhile_cons, hy, ih (fun x hx => hxs x (by simp [hx]))]

theorem matchMarkerAt_nil : matchMarkerAt [] = none := rfl

theorem reSearch_eq_none (l : List Nat) (h : ∀ q, matchMarkerAt (l.drop q) = none) :
    reSearch l = none := by
  induction l with
  | nil => rfl
  | cons x xs ih =>
    have h0 := h 0
    simp only [List.drop_zero] at h0
    simp only [reSearch, h0]
    exact ih (fun q => by have hq := h (q + 1); simpa using hq)

theorem reSearch_eq_none_of_bounded (l : List Nat)
    (h : ∀ q, q ≤ l.length → matchMarkerAt (l.drop q) = none) :
    reSearch l = none := by
  apply reSearch_eq_none
  intro q
  by_cases hq : q ≤ l.length
  · exact h q hq
  · rw [List.drop_eq_nil_of_le (by omega)]
    rfl

theorem reSearch_leftmost (p : Nat) : ∀ (l : List Nat) (g : List Nat × List Nat),
    matchMarkerAt (l.drop p) = some g → (∀ q, q < p → matchMarkerAt (l.drop q) = none) →
    reSearch l = some g := by
  induction p with
  | zero =>
    intro l g hm _
    rw [List.drop_zero] at hm
    cases l with
    | nil => rw [matchMarkerAt_nil] at hm; exact absurd hm (by simp)
    | cons x xs => simp only [reSearch, hm]
  | succ p ih =>
    intro l g hm hnone
    cases l with
    | nil => rw [List.drop_nil, matchMarkerAt_nil] at hm; exact absurd hm (by simp)
    | cons x xs =>
      have h0 := hnone 0 (Nat.succ_pos p)
      rw [List.drop_zero] at h0
      simp only [reSearch, h0]
      refine ih xs g (by simpa using hm) (fun q hq => ?_)
      have hq1 := hnone (q + 1) (by omega)
      simpa using hq1

theorem matchMarkerAt_marker89_append (rest : List Nat)
    (hrest : rest = [] ∨ ∃ b t, rest = b :: t ∧ versionChar b = false) :
    matchMarkerAt (marker89 ++ rest) = some (v89, v89) := by
  rcases hrest with h | ⟨b, t, hbt, hb⟩
  · subst h
    rw [List.append_nil]
    decide
  · subst hbt
    have key : matchMarkerAt (marker89 ++ b :: t)
        = some (v89, v89 ++ List.takeWhile versionChar (b :: t)) := rfl
    have hv : List.takeWhile versionChar (b :: t) = [] := by
      simp [List.takeWhile_cons, hb]
    rw [key, hv, List.append_nil]

theorem drop_marker_decomp (l : List Nat) (p : Nat) (h : (l.drop p).take 44 = marker89) :
    l.drop p = marker89 ++ l.drop (p + 44) := by
  conv_lhs => rw [← List.take_append_drop 44 (l.drop p)]
  rw [h, List.drop_drop]

theorem drop_head_case (l : List Nat) (n : Nat) :
    l.drop n = [] ∨ ∃ t, l.drop n = l.getD n 0 :: t := by
  cases h : l.drop n with
  | nil => exact Or.inl rfl
  | cons b t =>
    refine Or.inr ⟨t, ?_⟩
    have hb : l[n]? = some b := by
      have := List.getElem?_drop l n 0
      rw [h] at this
      simpa using this.symm
    simp [List.getD, hb]

/-! Concrete files used by the witnesses and counterexamples. A minimal
64-bit little-endian ELF: identification block, primary header with
`shoff = 64`, `shentsize = 64`, `shnum = 2`, `shstrndx = 0`, a string-table
section header (entry 0, name offset 0, blob at offset 192 of size 9), a
`.rodata` section header (entry 1, name offset 1, file offset 0), the
string-table blob, and the marker text. -/

/-- Identification bytes: magic, class 2 (x64), data 1 (little), version 1. -/
def identBytes : List Nat :=
  [127, 69, 76, 70, 2, 1, 1, 0, 0, 0, 0, 0, 0, 0, 0, 0]

/-- Primary-header bytes (48 bytes, x64 layout). -/
def headerBytes : List Nat :=
  [0, 0, 0, 0, 0, 0, 0, 0,
   0, 0, 0, 0, 0, 0, 0, 0,
   0, 0, 0, 0, 0, 0, 0, 0,
   64, 0, 0, 0, 0, 0, 0, 0,
   0, 0, 0, 0, 0, 0, 0, 0,
   0, 0, 64, 0, 2, 0, 0, 0]

/-- Section-header entry 0: the string-table section, blob at offset 192,
size 9 (64 bytes, x64 layout). -/
def strtabEntryBytes : List Nat :=
  [0, 0, 0, 0, 0, 0, 0, 0,
   0, 0, 0, 0, 0, 0, 0, 0,
   0, 0, 0, 0, 0, 0, 0, 0,
   192, 0, 0, 0, 0, 0, 0, 0,
   9, 0, 0, 0, 0, 0, 0, 0,
   0, 0, 0, 0, 0, 0, 0, 0,
   0, 0, 0, 0, 0, 0, 0, 0,
   0, 0, 0, 0, 0, 0, 0, 0]

/-- Section-header entry 1: name offset 1 (`.rodata`), file offset 0,
size `sz` (64 bytes, x64 layout); `sz` must be below 65536. -/
def rodataEntryBytes (sz : Nat) : List Nat :=
  [1, 0, 0, 0, 0, 0, 0, 0,
   0, 0, 0, 0, 0, 0, 0, 0,
   0, 0, 0, 0, 0, 0, 0, 0,
   0, 0, 0, 0, 0, 0, 0, 0,
   sz % 256, sz / 256, 0, 0, 0, 0, 0, 0,
   0, 0, 0, 0, 0, 0, 0, 0,
   0, 0, 0, 0, 0, 0, 0, 0,
   0, 0, 0, 0, 0, 0, 0, 0]

/-- The string-table blob: offset 0 is the empty name, offset 1 is
`.rodata`. -/
def strtabBytes : List Nat := [0, 46, 114, 111, 100, 97, 116, 97, 0]

/-- A 245-byte well-formed ELF file whose `.rodata` section covers the whole
file (offset 0, size 245) and whose bytes contain the marker exactly once,
at offset 201. -/
def c1file : List Nat :=
  identBytes ++ headerBytes ++ strtabEntryBytes ++ rodataEntryBytes 245
    ++ strtabBytes ++ marker89

/-- The bytes `QtWebEngine/1.0 Chrome/2.0`: an earlier, different
occurrence of the version pattern. -/
def smallMarker : List Nat := qtwePre ++ [49, 46, 48] ++ chromePre ++ [50, 46, 48]

/-- A 271-byte well-formed ELF file (`.rodata` = whole file, size 271)
whose bytes contain `QtWebEngine/1.0 Chrome/2.0` at offset 201 and the
full 89.0.4389.90 marker at offset 227. -/
def c1bad : List Nat :=
  identBytes ++ headerBytes ++ strtabEntryBytes ++ rodataEntryBytes 271
    ++ strtabBytes ++ smallMarker ++ marker89

/-- A 16-byte file whose magic is wrong and whose class byte (value 0) is
also unrecognized. -/
def c4bytes : List Nat := [0, 0, 0, 0, 0, 1, 1, 0, 0, 0, 0, 0, 0, 0, 0, 0]

/-- A single section-header entry whose name offset is 1 (resolving to
`.rodata` in `strtabBytes`). -/
def c3entry : List Nat := [1, 0, 0, 0] ++ List.replicate 60 0

/-- Content holding two section-header entries at offsets 0 and 64, the
first of which is named `.rodata`. -/
def c3content : List Nat := c3entry ++ List.replicate 64 0

/-- Like `c1file` but with a string table in which no name is `.rodata`
(the last name byte differs). -/
def c6file : List Nat :=
  identBytes ++ headerBytes ++ strtabEntryBytes ++ rodataEntryBytes 245
    ++ [0, 46, 114, 111, 100, 97, 116, 98, 0] ++ marker89


/-! The claims. -/

/-- C10: For every string-table blob and every name offset, including
offsets greater than or equal to the blob's length, name resolution is a
total function of the blob: it equals the bytes from the offset up to (not
including) the first null byte, it is the empty byte string when the offset
is at or past the end of the blob, and its result is always a contiguous
piece of the blob, so resolution never raises an error and never reads
outside the blob's bounds. -/
theorem c10_resolveName_safe (st : List Nat) (off : Nat) :
    resolveName st off = (st.drop off).takeWhile (fun b => b != 0) ∧
    (st.length ≤ off → resolveName st off = []) ∧
    ∃ pre post, pre ++ resolveName st off ++ post = st := by
  refine ⟨resolveName_eq_takeWhile st off, ?_, ?_⟩
  · intro h
    rw [resolveName_eq_takeWhile, List.drop_eq_nil_of_le h]
    rfl
  · refine ⟨st.take off, (st.drop off).dropWhile (fun b => b != 0), ?_⟩
    rw [resolveName_eq_takeWhile, List.append_assoc, List.takeWhile_append_dropWhile,
      List.take_append_drop]

/-- Witness for C10 at concrete inputs: an offset past the end of the blob
resolves to the empty name and an in-range offset resolves up to the first
null byte. -/
theorem c10_witness : resolveName [5, 0, 7] 4 = [] ∧ resolveName [5, 0, 7] 0 = [5] := by
  constructor
  · exact (c10_resolveName_safe [5, 0, 7] 4).2.1 (by decide)
  · rw [(c10_resolveName_safe [5, 0, 7] 0).1]
    decide

/-- C7: When no position of the located section's bytes matches the marker
pattern, extraction fails with the not-found `ParseError` (`No match in
.rodata`); when a position matches, the captures delivered by the search
are those of the leftmost matching position. -/
theorem c7_extract_leftmost (region : List Nat) :
    ((∀ p, p ≤ region.length → matchMarkerAt (region.drop p) = none) →
      versionsFromRodata region = .error (.parse .noMatch)) ∧
    (∀ p g1 g2, matchMarkerAt (region.drop p) = some (g1, g2) →
      (∀ q, q < p → matchMarkerAt (region.drop q) = none) →
      reSearch region = some (g1, g2)) := by
  constructor
  · intro h
    have hs := reSearch_eq_none_of_bounded region h
    simp [versionsFromRodata, hs]
  · intro p g1 g2 hm hnone
    exact reSearch_leftmost p region (g1, g2) hm hnone

/-- Witness for C7: a two-byte region with no occurrence fails with the
not-found failure, and the marker itself is found at its position 0. -/
theorem c7_witness :
    versionsFromRodata [120, 120] = .error (.parse .noMatch) ∧
    reSearch marker89 = some (v89, v89) := by
  constructor
  · exact (c7_extract_leftmost [120, 120]).1 (by decide)
  · exact (c7_extract_leftmost marker89).2 0 v89 v89 (by decide)
      (fun q hq => absurd hq (Nat.not_lt_zero q))

/-- C9: For every file whose identification block decodes and validates
successfully (valid class value, correct magic) and whose byte-order byte
is 2 (big endian), parsing fails with the explicit big-endian format
failure. The hypotheses constrain only the first 16 bytes and the
conclusion holds for every file sharing them, so the failure occurs before
the primary header or any section header is read. -/
theorem c9_bigEndian_rejected (c : List Nat)
    (h16 : 16 ≤ c.length)
    (hmag : c.take 4 = elfMagic)
    (hk : c.getD 4 0 = 1 ∨ c.getD 4 0 = 2)
    (hbig : c.getD 5 0 = 2) :
    get_rodata_header (mkF c) = .error (.parse .bigEndian) := by
  obtain ⟨k, hkk⟩ : ∃ k, Bitness.fromVal (c.getD 4 0) = some k := by
    rcases hk with h | h <;> rw [h] <;> exact ⟨_, rfl⟩
  have hident := identParse_ok c h16 k Endianness.big hkk (by rw [hbig]; rfl)
  simp only [get_rodata_header, hident, hmag]
  rw [if_neg (not_not_intro rfl)]
  rw [if_pos (by decide)]

/-- Witness for C9: a concrete 16-byte big-endian identification block is
rejected with the big-endian failure. -/
theorem c9_witness :
    get_rodata_header (mkF [127, 69, 76, 70, 2, 2, 1, 0, 0, 0, 0, 0, 0, 0, 0, 0]) =
      .error (.parse .bigEndian) :=
  c9_bigEndian_rejected _ (by decide) (by decide) (Or.inr (by decide)) (by decide)

/-- C4 counterexample: a 16-byte input whose magic is wrong (all zeros) and
whose class byte (0) is also unrecognized is rejected with the
`Invalid bitness` failure, not the magic violation: `Ident.parse` validates
the class and byte-order enum values before `get_rodata_header` checks the
magic, so the claimed validation order (magic before class) is not the
code's order. -/
theorem c4_counterexample :
    get_rodata_header (mkF c4bytes) = .error (.parse (.invalidBitness 0)) := rfl

/-- C4 (amended): the identification block is validated in the order
(1) short read, (2) class value unrecognized, (3) byte-order value
unrecognized, (4) magic mismatch, (5) big-endian rejection, (6) format
version different from 1; the first violated condition in this order
determines the reported failure, and no section parsing begins on
failure. -/
theorem c4_ident_validation_order (c : List Nat) :
    (c.length < 16 → get_rodata_header (mkF c) = .error (.parse .structErr)) ∧
    (16 ≤ c.length → Bitness.fromVal (c.getD 4 0) = none →
      get_rodata_header (mkF c) = .error (.parse (.invalidBitness (c.getD 4 0)))) ∧
    (∀ k, 16 ≤ c.length → Bitness.fromVal (c.getD 4 0) = some k →
      Endianness.fromVal (c.getD 5 0) = none →
      get_rodata_header (mkF c) = .error (.parse (.invalidEndianness (c.getD 5 0)))) ∧
    (∀ k e, 16 ≤ c.length → Bitness.fromVal (c.getD 4 0) = some k →
      Endianness.fromVal (c.getD 5 0) = some e → c.take 4 ≠ elfMagic →
      get_rodata_header (mkF c) = .error (.parse (.invalidMagic (c.take 4)))) ∧
    (∀ k, 16 ≤ c.length → Bitness.fromVal (c.getD 4 0) = some k →
      c.getD 5 0 = 2 → c.take 4 = elfMagic →
      get_rodata_header (mkF c) = .error (.parse .bigEndian)) ∧
    (∀ k, 16 ≤ c.length → Bitness.fromVal (c.getD 4 0) = some k →
      c.getD 5 0 = 1 → c.take 4 = elfMagic → c.getD 6 0 ≠ 1 →
      get_rodata_header (mkF c) = .error (.parse (.badVersion (c.getD 6 0)))) := by
  refine ⟨?_, ?_, ?_, ?_, ?_, ?_⟩
  · intro h
    simp only [get_rodata_header, identParse_short c h]
  · intro h16 hk
    simp only [get_rodata_header, identParse_badBitness c h16 hk]
  · intro k h16 hk he
    simp only [get_rodata_header, identParse_badEndian c h16 k hk he]
  · intro k e h16 hk he hmag
    simp only [get_rodata_header, identParse_ok c h16 k e hk he]
    rw [if_pos hmag]
  · intro k h16 hk hbig hmag
    have hident := identParse_ok c h16 k Endianness.big hk (by rw [hbig]; rfl)
    simp only [get_rodata_header, hident, hmag]
    rw [if_neg (not_not_intro rfl)]
    rw [if_pos (by decide)]
  · intro k h16 hk hlit hmag hver
    have hident := identParse_ok c h16 k Endianness.little hk (by rw [hlit]; rfl)
    simp only [get_rodata_header, hident, hmag]
    rw [if_neg (not_not_intro rfl)]
    rw [if_neg (by decide)]
    rw [if_pos hver]

/-- Witness for C4 (amended) at two concrete 16-byte inputs: an invalid
byte-order value is reported even though the later version byte is also
bad, and a bad version is reported when everything earlier is valid. -/
theorem c4_witness :
    get_rodata_header (mkF [127, 69, 76, 70, 2, 9, 7, 0, 0, 0, 0, 0, 0, 0, 0, 0]) =
      .error (.parse (.invalidEndianness 9)) ∧
    get_rodata_header (mkF [127, 69, 76, 70, 2, 1, 7, 0, 0, 0, 0, 0, 0, 0, 0, 0]) =
      .error (.parse (.badVersion 7)) := by
  constructor
  · exact (c4_ident_validation_order _).2.2.1 Bitness.x64 (by decide) (by decide) (by decide)
  · exact (c4_ident_validation_order _).2.2.2.2.2 Bitness.x64 (by decide) (by decide)
      (by decide) (by decide) (by decide)

/-- C8: A file truncated in the middle of the identification block, of the
primary header, or of a section-header entry (the string-table section's
own entry, or any entry visited by the scan after the earlier, in-bounds
entries did not match) makes parsing fail with the `ParseError` wrapping
the short-read `struct.error` — the spec's I/O failure for short reads.
All embedded functions are total, so no crash and no out-of-bounds read
can occur. -/
theorem c8_truncation_io_failure (c : List Nat) (k : Bitness) :
    (c.length < 16 → get_rodata_header (mkF c) = .error (.parse .structErr)) ∧
    (16 ≤ c.length → Bitness.fromVal (c.getD 4 0) = some k → c.take 4 = elfMagic →
      c.getD 5 0 = 1 → c.getD 6 0 = 1 → c.length < 16 + hSize k →
      get_rodata_header (mkF c) = .error (.parse .structErr)) ∧
    (16 ≤ c.length → Bitness.fromVal (c.getD 4 0) = some k → c.take 4 = elfMagic →
      c.getD 5 0 = 1 → c.getD 6 0 = 1 → 16 + hSize k ≤ c.length →
      c.length < (headerAt c k).shoff + (headerAt c k).shstrndx * (headerAt c k).shentsize
        + shSize k →
      get_rodata_header (mkF c) = .error (.parse .structErr)) ∧
    (∀ i0, 16 ≤ c.length → Bitness.fromVal (c.getD 4 0) = some k → c.take 4 = elfMagic →
      c.getD 5 0 = 1 → c.getD 6 0 = 1 → 16 + hSize k ≤ c.length →
      (headerAt c k).shoff + (headerAt c k).shstrndx * (headerAt c k).shentsize
        + shSize k ≤ c.length →
      i0 < (headerAt c k).shnum →
      (∀ j, j < i0 →
        (headerAt c k).shoff + j * (headerAt c k).shentsize + shSize k ≤ c.length ∧
        resolveName (stringTableAt c k)
          (sectionEntryAt c k (headerAt c k).shoff (headerAt c k).shentsize j).name
          ≠ rodataName) →
      c.length < (headerAt c k).shoff + i0 * (headerAt c k).shentsize + shSize k →
      get_rodata_header (mkF c) = .error (.parse .structErr)) := by
  refine ⟨?_, ?_, ?_, ?_⟩
  · intro h
    simp only [get_rodata_header, identParse_short c h]
  · intro h16 hk hmag hlit hver hh
    have hident := identParse_ok c h16 k Endianness.little hk (by rw [hlit]; rfl)
    simp only [get_rodata_header, hident, hmag]
    rw [if_neg (not_not_intro rfl)]
    rw [if_neg (by decide)]
    rw [if_neg (by rw [hver]; exact not_not_intro rfl)]
    simp only [headerParse_short c k hh]
  · intro h16 hk hmag hlit hver hh hstr
    have hident := identParse_ok c h16 k Endianness.little hk (by rw [hlit]; rfl)
    have hheader := headerParse_ok c k hh
    have hshort := shParse_eval_short c k noFail
      ((headerAt c k).shoff + (headerAt c k).shstrndx * (headerAt c k).shentsize) 2 rfl hstr
    simp only [get_rodata_header, hident, hmag]
    rw [if_neg (not_not_intro rfl)]
    rw [if_neg (by decide)]
    rw [if_neg (by rw [hver]; exact not_not_intro rfl)]
    simp only [hheader, fseek, hshort]
  · intro i0 h16 hk hmag hlit hver hh hstr hi0 hpre htr
    have hscan := scanFrom_trunc c (stringTableAt c k) k (headerAt c k).shoff
      (headerAt c k).shentsize (headerAt c k).shnum 0 (scanStartF c k) rfl (fun j => rfl)
      i0 (Nat.zero_le i0) (by omega) (fun j hj1 hj2 => hpre j hj2) htr
    rw [grh_eval c k h16 hk hmag hlit hver hh hstr, hscan]

/-- Witness for C8: a 1-byte file (truncated identification block) and the
245-byte well-formed file truncated to 130 bytes (cutting the second
section-header entry in half) both fail with the short-read failure. -/
theorem c8_witness :
    get_rodata_header (mkF [127]) = .error (.parse .structErr) ∧
    get_rodata_header (mkF (c1file.take 130)) = .error (.parse .structErr) := by
  constructor
  · exact (c8_truncation_io_failure [127] Bitness.x64).1 (by decide)
  · exact (c8_truncation_io_failure (c1file.take 130) Bitness.x64).2.2.2 1 (by decide)
      (by decide) (by decide) (by decide) (by decide) (by decide) (by decide) (by decide)
      (by decide) (by decide)

/-- C6: For an otherwise well-formed input (identification block, primary
header and string-table section in bounds, all scanned entries in bounds)
in which no section-header entry resolves to `.rodata`, parsing fails with
the not-found failure `No .rodata section found` — not success, not a
crash, not another failure kind — and the scan visits exactly `shnum`
entries. -/
theorem c6_no_match_visits_all (c : List Nat) (k : Bitness)
    (h16 : 16 ≤ c.length)
    (hk : Bitness.fromVal (c.getD 4 0) = some k)
    (hmag : c.take 4 = elfMagic)
    (hlit : c.getD 5 0 = 1)
    (hver : c.getD 6 0 = 1)
    (hh : 16 + hSize k ≤ c.length)
    (hstr : (headerAt c k).shoff + (headerAt c k).shstrndx * (headerAt c k).shentsize
      + shSize k ≤ c.length)
    (hb : ∀ i, i < (headerAt c k).shnum →
      (headerAt c k).shoff + i * (headerAt c k).shentsize + shSize k ≤ c.length)
    (hnone : ∀ i, i < (headerAt c k).shnum →
      resolveName (stringTableAt c k)
        (sectionEntryAt c k (headerAt c k).shoff (headerAt c k).shentsize i).name
        ≠ rodataName) :
    get_rodata_header (mkF c) = .error (.parse .noRodata) ∧
    scanFrom (stringTableAt c k) (headerAt c k).shoff (headerAt c k).shentsize k
      (scanStartF c k) 0 (headerAt c k).shnum =
      (.error (.parse .noRodata), (headerAt c k).shnum) := by
  have hscan := scanFrom_noMatch c (stringTableAt c k) k (headerAt c k).shoff
    (headerAt c k).shentsize (headerAt c k).shnum 0 (scanStartF c k) rfl (fun j => rfl)
    (fun j hj1 hj2 => hb j (by omega)) (fun j hj1 hj2 => hnone j (by omega))
  refine ⟨?_, hscan⟩
  rw [grh_eval c k h16 hk hmag hlit hver hh hstr, hscan]

/-- Witness for C6: the concrete file `c6file` (well-formed, two sections
named `` and `.rodatb`) fails with the not-found failure. -/
theorem c6_witness : get_rodata_header (mkF c6file) = .error (.parse .noRodata) :=
  (c6_no_match_visits_all c6file Bitness.x64 (by decide) (by decide) (by decide) (by decide)
    (by decide) (by decide) (by decide) (by decide) (by decide)).1

/-- C5: When at least one section-header entry's resolved name equals
`.rodata` byte-for-byte — resolution takes the string-table bytes at the
entry's name offset up to (not including) the first null — the scan
returns the entry with the lowest index among all matches. -/
theorem c5_first_match_returned (c : List Nat) (k : Bitness) (i0 : Nat)
    (h16 : 16 ≤ c.length)
    (hk : Bitness.fromVal (c.getD 4 0) = some k)
    (hmag : c.take 4 = elfMagic)
    (hlit : c.getD 5 0 = 1)
    (hver : c.getD 6 0 = 1)
    (hh : 16 + hSize k ≤ c.length)
    (hstr : (headerAt c k).shoff + (headerAt c k).shstrndx * (headerAt c k).shentsize
      + shSize k ≤ c.length)
    (hb : ∀ i, i < (headerAt c k).shnum →
      (headerAt c k).shoff + i * (headerAt c k).shentsize + shSize k ≤ c.length)
    (hi0 : i0 < (headerAt c k).shnum)
    (hmatch : resolveName (stringTableAt c k)
      (sectionEntryAt c k (headerAt c k).shoff (headerAt c k).shentsize i0).name
      = rodataName)
    (hleast : ∀ j, j < i0 →
      resolveName (stringTableAt c k)
        (sectionEntryAt c k (headerAt c k).shoff (headerAt c k).shentsize j).name
        ≠ rodataName) :
    ∃ f2, get_rodata_header (mkF c) =
      .ok (sectionEntryAt c k (headerAt c k).shoff (headerAt c k).shentsize i0, f2) := by
  obtain ⟨f2, hscan⟩ := scanFrom_found c (stringTableAt c k) k (headerAt c k).shoff
    (headerAt c k).shentsize (headerAt c k).shnum 0 (scanStartF c k) rfl (fun j => rfl)
    i0 (Nat.zero_le i0) (by omega) (fun j hj1 hj2 => hb j (by omega)) hmatch
    (fun j hj1 hj2 => hleast j hj2)
  refine ⟨f2, ?_⟩
  rw [grh_eval c k h16 hk hmag hlit hver hh hstr, hscan]

/-- Witness for C5: on `c1file`, where entry 0 resolves to the empty name
and entry 1 to `.rodata`, the scan returns entry 1. -/
theorem c5_witness : ∃ f2, get_rodata_header (mkF c1file) =
    .ok (sectionEntryAt c1file Bitness.x64 64 64 1, f2) :=
  c5_first_match_returned c1file Bitness.x64 1 (by decide) (by decide) (by decide)
    (by decide) (by decide) (by decide) (by decide) (by decide) (by decide) (by decide)
    (by decide)

/-- C3 counterexample: with `shnum` = 2 entries and the first entry named
`.rodata`, the scan visits exactly one entry, not `sectionCount` = 2: the
loop returns as soon as a resolved name matches, so the number of visited
entries depends on where the first match occurs. -/
theorem c3_counterexample :
    (scanFrom strtabBytes 0 64 Bitness.x64 (mkF c3content) 0 2).2 = 1 := rfl

/-- C3 (amended): the scan visits exactly `shnum` entries when no entry's
resolved name matches `.rodata`; when the lowest matching index is `i0`,
it visits exactly `i0 + 1` entries and returns that entry's header. -/
theorem c3_visit_count (c st : List Nat) (k : Bitness) (shoff shent shnum : Nat) (f : FObj)
    (hc : f.content = c) (hrf : ∀ j, f.readFails j = false)
    (hb : ∀ i, i < shnum → shoff + i * shent + shSize k ≤ c.length) :
    ((∀ i, i < shnum → resolveName st (sectionEntryAt c k shoff shent i).name ≠ rodataName) →
      (scanFrom st shoff shent k f 0 shnum).2 = shnum) ∧
    (∀ i0, i0 < shnum →
      resolveName st (sectionEntryAt c k shoff shent i0).name = rodataName →
      (∀ j, j < i0 → resolveName st (sectionEntryAt c k shoff shent j).name ≠ rodataName) →
      (scanFrom st shoff shent k f 0 shnum).2 = i0 + 1) := by
  constructor
  · intro hnone
    rw [scanFrom_noMatch c st k shoff shent shnum 0 f hc hrf
      (fun j hj1 hj2 => hb j (by omega)) (fun j hj1 hj2 => hnone j (by omega))]
  · intro i0 hi0 hmatch hleast
    obtain ⟨f2, hscan⟩ := scanFrom_found c st k shoff shent shnum 0 f hc hrf i0
      (Nat.zero_le i0) (by omega) (fun j hj1 hj2 => hb j (by omega)) hmatch
      (fun j hj1 hj2 => hleast j hj2)
    rw [hscan]
    simp

/-- Witness for C3 (amended): with a string table resolving no entry of
`c3content` to `.rodata` the scan visits both entries; with `strtabBytes`,
where entry 0 matches, it visits exactly one. -/
theorem c3_witness :
    (scanFrom [0] 0 64 Bitness.x64 (mkF c3content) 0 2).2 = 2 ∧
    (scanFrom strtabBytes 0 64 Bitness.x64 (mkF c3content) 0 2).2 = 1 := by
  constructor
  · exact (c3_visit_count c3content [0] Bitness.x64 0 64 2 (mkF c3content) rfl
      (fun j => rfl) (by decide)).1 (by decide)
  · exact (c3_visit_count c3content strtabBytes Bitness.x64 0 64 2 (mkF c3content) rfl
      (fun j => rfl) (by decide)).2 0 (by decide) (by decide)
      (fun j hj => absurd hj (Nat.not_lt_zero j))

/-- C2 counterexample: on a well-formed file whose fourth read operation —
the raw, unwrapped `f.read(shstr.size)` string-table read inside
`get_rodata_header` — raises `OSError`, the exception is not a
`ParseError`, so the `except ParseError` handler of `parse_webenginecore`
does not catch it and the failure propagates past the boundary to the
caller, contradicting the claim that no failure of any kind ever
propagates. -/
theorem c2_counterexample :
    parse_webenginecore true c1file (fun n => n == 3) = .error .osErr := rfl

/-- C2 (amended): every `ParseError` raised during the pipeline is caught
at `parse_webenginecore` and collapsed to the no-result value: no outcome
of `parse_webenginecore` is an escaped `ParseError`, and whenever
`_parse_from_path` raises a `ParseError` the caller receives `None`.
Exceptions of other classes — an `OSError` from the unwrapped string-table
read, or a `ValueError` from `mmap` — do propagate, as the counterexample
shows. -/
theorem c2_parse_errors_collapsed (libExists : Bool) (c : List Nat) (rf : Nat → Bool) :
    isParseErrorResult (parse_webenginecore libExists c rf) = false ∧
    (∀ pe, _parse_from_path c rf = .error (.parse pe) →
      parse_webenginecore libExists c rf = .ok none) := by
  constructor
  · by_cases hex : libExists = false
    · simp [parse_webenginecore, hex, isParseErrorResult]
    · cases hp : _parse_from_path c rf with
      | ok v => simp [parse_webenginecore, hex, hp, isParseErrorResult]
      | error e =>
        cases e with
        | parse pe => simp [parse_webenginecore, hex, hp, isParseErrorResult]
        | osErr => simp [parse_webenginecore, hex, hp, isParseErrorResult]
        | valueErr => simp [parse_webenginecore, hex, hp, isParseErrorResult]
  · intro pe hp
    by_cases hex : libExists = false
    · simp [parse_webenginecore, hex]
    · simp [parse_webenginecore, hex, hp]

/-- Witness for C2 (amended): the 16-byte input with an unrecognized class
raises a `ParseError` in `_parse_from_path`, which `parse_webenginecore`
converts to `None`. -/
theorem c2_witness : parse_webenginecore true c4bytes noFail = .ok none :=
  (c2_parse_errors_collapsed true c4bytes noFail).2 (.invalidBitness 0) rfl

/-- C1 counterexample: `c1bad` is a well-formed little-endian 64-bit file
whose `.rodata` section bytes embed the full marker
`QtWebEngine/89.0.4389.90 Chrome/89.0.4389.90` (at offset 227 of the
section's bytes), yet the pipeline returns the versions `1.0` and `2.0`
captured from an earlier occurrence of the pattern
(`QtWebEngine/1.0 Chrome/2.0` at offset 201), not the claimed
`89.0.4389.90` pair: embedding the marker does not by itself determine the
output. -/
theorem c1_counterexample :
    (c1bad.drop 227).take 44 = marker89 ∧
    parse_webenginecore true c1bad noFail = .ok (some ⟨[49, 46, 48], [50, 46, 48]⟩) ∧
    (Versions.mk [49, 46, 48] [50, 46, 48] ≠ Versions.mk v89 v89) := by
  refine ⟨by decide, rfl, by decide⟩

/-- C1 (amended): for a well-formed little-endian 64-bit file — one
accepted by `get_rodata_header` — whose located section has a page-aligned,
in-bounds, nonzero byte range, and whose section bytes contain the marker
`QtWebEngine/89.0.4389.90 Chrome/89.0.4389.90` at a position `p` that is
the leftmost position matching the version pattern, with the marker not
immediately followed by a further version character, the top-level
pipeline returns engineVersion `89.0.4389.90` and otherVersion
`89.0.4389.90`, both fields populated as one pair. -/
theorem c1_versions_extracted (c : List Nat) (sh : SectionHeader) (f1 : FObj)
    (region : List Nat) (p : Nat)
    (h64 : c.getD 4 0 = 2)
    (hok : get_rodata_header (mkF c) = .ok (sh, f1))
    (halign : sh.offset % allocGranularity = 0)
    (hsz : sh.size ≠ 0)
    (hbound : sh.offset + sh.size ≤ c.length)
    (hreg : region = (c.drop sh.offset).take sh.size)
    (hmark : (region.drop p).take 44 = marker89)
    (hend : p + 44 = region.length ∨ versionChar (region.getD (p + 44) 0) = false)
    (hleft : ∀ q, q < p → matchMarkerAt (region.drop q) = none) :
    parse_webenginecore true c noFail = .ok (some ⟨v89, v89⟩) := by
  have hdecomp : region.drop p = marker89 ++ region.drop (p + 44) :=
    drop_marker_decomp region p hmark
  have hrest : region.drop (p + 44) = [] ∨
      ∃ b t, region.drop (p + 44) = b :: t ∧ versionChar b = false := by
    rcases drop_head_case region (p + 44) with h | ⟨t, ht⟩
    · exact Or.inl h
    · rcases hend with he | he
      · exact Or.inl (List.drop_eq_nil_of_le (by omega))
      · exact Or.inr ⟨region.getD (p + 44) 0, t, ht, he⟩
  have hmatch : matchMarkerAt (region.drop p) = some (v89, v89) := by
    rw [hdecomp]
    exact matchMarkerAt_marker89_append _ hrest
  have hsearch : reSearch region = some (v89, v89) :=
    reSearch_leftmost p region (v89, v89) hmatch hleft
  have hmmap : mmapRead c sh.size sh.offset = .ok region := by
    simp only [mmapRead]
    rw [if_neg (not_not_intro halign), if_neg hsz, if_neg (by omega), hreg]
  have hdec : decodeAscii v89 = .ok v89 := rfl
  have hvers : versionsFromRodata region = .ok ⟨v89, v89⟩ := by
    simp only [versionsFromRodata, hsearch, hdec]
  have hok2 : get_rodata_header (FObj.init c noFail) = .ok (sh, f1) := hok
  simp only [parse_webenginecore, _parse_from_path, hok2, hmmap, hvers]
  simp

/-- Witness for C1 (amended): the concrete well-formed file `c1file`
(`.rodata` at offset 0 spanning the whole 245-byte file, marker at
position 201) yields the `89.0.4389.90` pair. -/
theorem c1_witness : parse_webenginecore true c1file noFail = .ok (some ⟨v89, v89⟩) :=
  c1_versions_extracted c1file
    ⟨1, 0, 0, 0, 0, 245, 0, 0, 0, 0⟩ ⟨c1file, 192, noFail, 6⟩ c1file 201
    (by decide) rfl (by decide) (by decide) (by decide) (by decide) (by decide)
    (Or.inl (by decide)) (by decide)
